import Mathlib

/-!
Shallow embedding of the `js-libp2p-multicast-conditional` dissemination core.

The repository contains two variants of the multicast engine:
* `src/src/index.js` — synchronous forwarding validators (`_fwrdValidators`,
  validators return booleans);
* `src/unnamed/part_000` — asynchronous forwarding hooks (`fwrdHooks`,
  validators complete through a callback that may report an error).
Both are embedded below, together with the peer record (`src/src/peer.js`)
and the façade (`src/unnamed/part_001`).

JavaScript buffers for `from` / `seqno` / `data` are modelled by the strings
they carry (the engine treats them as opaque blobs and converts them to text
where it builds message identifiers).  JavaScript `Set`s are modelled by
duplicate-free insertion-ordered lists.  The time-bounded duplicate cache is
modelled as a set of identifiers with no eviction: all statements below are
relative to one cache validity window, inside which `time-cache` never
evicts an inserted entry.
-/

namespace Multicast

/-- Topic names are opaque strings. -/
abbrev Topic := String

/-- Wire message (`Message` in `src/src/message/rpc.proto.js`).
`fromId` models the `from` field (`from` is a reserved word in Lean);
`data` and `seqno` are the opaque byte blobs, modelled as strings;
`hops` is the signed 32-bit hop counter; `topicIDs` the addressed topics. -/
structure Message where
  fromId : String
  data : String
  seqno : String
  hops : Int
  topicIDs : List Topic
deriving DecidableEq, Repr

/-- `SubOpts` record of the wire schema: one subscription delta. -/
structure SubOpts where
  subscribe : Bool
  topicCID : Topic
deriving DecidableEq, Repr

/-- `RPC` record of the wire schema. -/
structure RPC where
  subscriptions : List SubOpts := []
  msgs : List Message := []
deriving DecidableEq, Repr

/-- Peer record (`src/src/peer.js`).  `stream` models the `pull-pushable`
send stream: `none` when no writable connection exists, `some rs` holding
the records pushed so far otherwise. -/
structure Peer where
  id : String
  topics : List Topic
  stream : Option (List RPC)
  references : Int
deriving DecidableEq, Repr

/-- `get isWritable ()` — true iff a send stream is installed. -/
def Peer.isWritable (p : Peer) : Bool := p.stream.isSome

/-- `get isConnected ()` — same test as `isWritable` in the source. -/
def Peer.isConnected (p : Peer) : Bool := p.stream.isSome

/-- Observable outcome of `Peer.write`: the updated peer record, the error
(if any) delivered to a caller-supplied callback, and whether a record was
pushed onto the stream.  `write` never throws in the source — a missing
stream is reported through the callback — so the embedding is a total
function. -/
structure WriteOut where
  peer : Peer
  delivered : Option String
  wrote : Bool
deriving DecidableEq, Repr

/-- `write (msg, cb)` from `src/src/peer.js`.  `hasCb` records whether the
caller supplied a callback; when absent the source substitutes `noop`, so
the error is discarded. -/
def Peer.write (p : Peer) (msg : RPC) (hasCb : Bool) : WriteOut :=
  match p.stream with
  | none =>
      { peer := p
        delivered := if hasCb then some ("No writable connection to " ++ p.id) else none
        wrote := false }
  | some s =>
      { peer := { p with stream := some (s ++ [msg]) }
        delivered := none
        wrote := true }

/-- `_sendRawSubscriptions (topics, subscribe)`: no-op on empty topic set,
otherwise one RPC record with one `SubOpts` entry per topic.  The `write`
call passes no callback. -/
def Peer.sendRawSubscriptions (p : Peer) (topics : List Topic) (sub : Bool) : Peer :=
  if topics.length = 0 then p
  else
    (p.write { subscriptions := topics.map (fun t => { subscribe := sub, topicCID := t })
               msgs := [] } false).peer

/-- `sendSubscriptions (topics)`. -/
def Peer.sendSubscriptions (p : Peer) (topics : List Topic) : Peer :=
  p.sendRawSubscriptions topics true

/-- `sendUnsubscriptions (topics)`. -/
def Peer.sendUnsubscriptions (p : Peer) (topics : List Topic) : Peer :=
  p.sendRawSubscriptions topics false

/-- `sendMessages (msgs)`: pushes one RPC record with `msgs` populated.
Note the source has no empty-input guard here. -/
def Peer.sendMessages (p : Peer) (msgs : List Message) : Peer :=
  (p.write { subscriptions := [], msgs := msgs } false).peer

/-- `updateSubscriptions (changes)`: apply each delta in order;
`subscribe = true` adds the topic to the peer's topic set, otherwise it is
removed.  Set semantics: adding an already-present topic is a no-op. -/
def Peer.updateSubscriptions (p : Peer) (changes : List SubOpts) : Peer :=
  changes.foldl
    (fun q c =>
      if c.subscribe then
        { q with topics := if q.topics.contains c.topicCID then q.topics
                           else q.topics ++ [c.topicCID] }
      else
        { q with topics := q.topics.filter (fun t => t ≠ c.topicCID) })
    p

/-- Modelled from the spec: `utils.msgId` is required from `./utils`, which
is absent from `src/`.  §3 of the spec: "Message identifier. Derived as the
concatenation `from || seqno-as-text`." -/
def msgId (fromId seqnoText : String) : String := fromId ++ seqnoText

/-- Modelled from the spec: `utils.anyMatch` is required from `./utils`,
which is absent from `src/`.  §4.4: "If `q.topics` and `topics` are
disjoint, skip" — `anyMatch` returns true iff the two collections share at
least one element. -/
def anyMatch (a b : List Topic) : Bool := a.any (fun t => b.contains t)

/-- Modelled from the spec: `utils.normalizeInRpcMessages` canonicalizes the
byte vs. text forms of `from` and `seqno` (§4.3 step 2).  In this model both
are already strings, so normalization is the identity. -/
def normalizeInRpcMessages (msgs : List Message) : List Message := msgs

/-- Modelled from the spec: `utils.normalizeOutRpcMessages` converts `from`
and `seqno` back to wire form (§4.4 step 4); the identity in this model. -/
def normalizeOutRpcMessages (msgs : List Message) : List Message := msgs

/-- Observable actions of the engine's receive pipeline:
`put id` — the identifier was inserted into the duplicate cache;
`emit t m` — message `m` was delivered to local listeners of topic `t`;
`fwd ts m` — `_forwardMessages (ts, [m])` was invoked for `m`. -/
inductive Event where
  | put (id : String)
  | emit (topic : Topic) (msg : Message)
  | fwd (topics : List Topic) (msg : Message)
deriving DecidableEq, Repr

/-- A synchronous forwarding validator (`src/src/index.js`): returns a
boolean, falsy fails the validation. -/
abbrev SyncValidator := Peer → Message → Bool

/-- An asynchronous forwarding hook (`src/unnamed/part_000`): completes its
callback with either an error or a boolean verdict. -/
abbrev AsyncValidator := Peer → Message → Except String Bool

/-- Look up the validator set registered for a topic in the
`_fwrdValidators` map (modelled as an association list; `none` when the map
has no entry for the topic). -/
def lookupValidators (reg : List (Topic × List SyncValidator)) (t : Topic) :
    Option (List SyncValidator) :=
  (reg.find? (fun e => e.1 == t)).map (fun e => e.2)

/-- Look up the hook set registered for a topic in the `fwrdHooks` map of
the asynchronous variant. -/
def lookupHooks (reg : List (Topic × List AsyncValidator)) (t : Topic) :
    Option (List AsyncValidator) :=
  (reg.find? (fun e => e.1 == t)).map (fun e => e.2)

/-- `_emitMessages (topics, messages)`: for each topic present in the local
subscription set, emit every message to that topic's listeners. -/
def emitMessages (subs : List Topic) (topics : List Topic) (messages : List Message) :
    List Event :=
  (topics.filter (fun t => subs.contains t)).flatMap
    (fun t => messages.map (fun m => Event.emit t m))

/-- The body of the per-message loop of `_processRpcMessages` for one
normalized message: duplicate check against the cache, cache insertion,
local emit, hop check, hop decrement, and the forward invocation.  Returns
the updated cache together with the trace of observable events. -/
def processOne (subs : List Topic) (cache : List String) (m : Message) :
    List String × List Event :=
  let id := msgId m.fromId m.seqno
  if cache.contains id then (cache, [])
  else
    let cache' := id :: cache
    let emits := emitMessages subs m.topicIDs [m]
    if m.hops = 0 then (cache', Event.put id :: emits)
    else
      let m' := if m.hops > 0 then { m with hops := m.hops - 1 } else m
      (cache', Event.put id :: (emits ++ [Event.fwd m.topicIDs m']))

/-- `_processRpcMessages (msgs)`: run the per-message loop over the batch,
threading the cache. -/
def processRpcMessages (subs : List Topic) (cache : List String) :
    List Message → List String × List Event
  | [] => (cache, [])
  | m :: rest =>
    let r := processOne subs cache m
    let rr := processRpcMessages subs r.1 rest
    (rr.1, r.2 ++ rr.2)

/-- Number of cache insertions for a fixed identifier in an event trace:
each one marks one run of the local-emit-and-forward pipeline for that
identifier. -/
def countPut (id : String) (evs : List Event) : Nat :=
  (evs.filter (fun e => e == Event.put id)).length

/-- One step of the per-topic filtering loop of the synchronous
`_forwardMessages`: if the topic has a registered validator set, keep only
the messages approved by every validator in it. -/
def syncFilterStep (reg : List (Topic × List SyncValidator)) (q : Peer)
    (msgs : List Message) (t : Topic) : List Message :=
  match lookupValidators reg t with
  | none => msgs
  | some vs => msgs.filter (fun m => vs.all (fun v => v q m))

/-- Verdict of the synchronous variant for one topic: vacuously true when
the topic has no registered validator set, otherwise the conjunction of all
its validators on `(q, m)`. -/
def passesSync (reg : List (Topic × List SyncValidator)) (q : Peer) (m : Message)
    (t : Topic) : Bool :=
  match lookupValidators reg t with
  | none => true
  | some vs => vs.all (fun v => v q m)

/-- Per-peer body of the synchronous `_forwardMessages`
(`src/src/index.js`): skip non-writable peers and peers with no topic in
common with `topics`; otherwise successively filter the batch through the
validators of every topic the peer subscribes to, and send one RPC record
with the surviving messages.  `none` means no record is sent; `some l`
means exactly one record carrying `l` is sent (the source calls
`sendMessages` even when the filtered batch is empty). -/
def forwardToPeerSync (reg : List (Topic × List SyncValidator)) (q : Peer)
    (topics : List Topic) (messages : List Message) : Option (List Message) :=
  if !q.isWritable || !anyMatch q.topics topics then none
  else some (normalizeOutRpcMessages (q.topics.foldl (syncFilterStep reg q) messages))

/-- Sequentialization of `async/every` over the hook set: first error
reported wins, otherwise the conjunction of the verdicts (evaluated left to
right with short-circuit on a falsy verdict). -/
def everyValidators : List AsyncValidator → Peer → Message → Except String Bool
  | [], _, _ => .ok true
  | v :: vs, q, m =>
    match v q m with
    | .error e => .error e
    | .ok b => if b then everyValidators vs q m else .ok false

/-- Sequentialization of the `async/filter` call of the asynchronous
`_forwardMessages`: a message is kept iff it is addressed to the topic and
every hook approves it; a hook error on any message of the batch fails the
whole filter. -/
def filterTopicMsgs (vs : List AsyncValidator) (q : Peer) (t : Topic) :
    List Message → Except String (List Message)
  | [] => .ok []
  | m :: rest =>
    let keep : Except String Bool :=
      if m.topicIDs.contains t then everyValidators vs q m else .ok false
    match keep with
    | .error e => .error e
    | .ok b =>
      match filterTopicMsgs vs q t rest with
      | .error e => .error e
      | .ok ms => .ok (if b then m :: ms else ms)

/-- Per-topic send of the asynchronous `_forwardMessages`
(`src/unnamed/part_000`): with no hook entry for the topic the whole batch
is sent; with a hook entry the filtered batch is sent when non-empty, and a
filter error is logged and nothing is sent for that topic. -/
def asyncTopicSend (hooks : List (Topic × List AsyncValidator)) (q : Peer)
    (t : Topic) (messages : List Message) : List (List Message) :=
  match lookupHooks hooks t with
  | none => [normalizeOutRpcMessages messages]
  | some vs =>
    match filterTopicMsgs vs q t messages with
    | .error _ => []
    | .ok ms => if ms.length > 0 then [normalizeOutRpcMessages ms] else []

/-- Per-peer body of the asynchronous `_forwardMessages`: skip non-writable
peers and peers with no topic in common with `topics`; otherwise iterate
the peer's topics in order, producing one send per topic as dictated by
`asyncTopicSend`.  The result lists the `sendMessages` payloads pushed to
this peer. -/
def forwardToPeerAsync (hooks : List (Topic × List AsyncValidator)) (q : Peer)
    (topics : List Topic) (messages : List Message) : List (List Message) :=
  if !q.isWritable || !anyMatch q.topics topics then []
  else q.topics.flatMap (fun t => asyncTopicSend hooks q t messages)

/-- State of the `Multicast` engine of `src/src/index.js` (the synchronous
variant): started flag, textual local peer id, duplicate-suppression cache,
local subscription set, peer map (modelled as a list of peer records) and
the `_fwrdValidators` registry. -/
structure Engine where
  started : Bool
  localId : String
  cache : List String
  subscriptions : List Topic
  peers : List Peer
  fwrdValidators : List (Topic × List SyncValidator)

/-- The synchronous `_forwardMessages` over the whole peer map: the list of
`(peer id, record payload)` sends it performs. -/
def forwardMessagesSync (reg : List (Topic × List SyncValidator))
    (peers : List Peer) (topics : List Topic) (messages : List Message) :
    List (String × List Message) :=
  peers.flatMap (fun q =>
    match forwardToPeerSync reg q topics messages with
    | none => []
    | some l => [(q.id, l)])

/-- Result of `publish`: the updated engine plus the local emit events and
the per-peer sends. -/
structure PublishOut where
  engine : Engine
  emits : List Event
  sends : List (String × List Message)

/-- `publish (topics, messages, hops)` from `src/src/index.js`.  The fresh
sequence numbers drawn from `utils.randomSeqno` are passed in as `seqnos`
(one per payload, consumed in order).  Each built message's identifier is
put into the cache while the message is built (`messages.map(buildMessage)`
runs all cache insertions); the local emit and the forward run afterwards
against the updated cache.  Fails the `NotStarted` assertion when the
engine is not started. -/
def publish (e : Engine) (topics : List Topic) (payloads : List String)
    (seqnos : List String) (hops : Int) : Except String PublishOut :=
  if !e.started then .error "Multicast is not started"
  else
    let fromId := e.localId
    let built := (payloads.zip seqnos).map (fun ps =>
      (msgId fromId ps.2,
       ({ fromId := fromId, data := ps.1, seqno := ps.2, hops := hops,
          topicIDs := topics } : Message)))
    let ids := built.map (fun b => b.1)
    let msgObjects := built.map (fun b => b.2)
    .ok { engine := { e with cache := ids ++ e.cache }
          emits := emitMessages e.subscriptions topics msgObjects
          sends := forwardMessagesSync e.fwrdValidators e.peers topics
                     (normalizeOutRpcMessages msgObjects) }

/-- Modelled from the spec: the base-class `stop` lives in `./base`, which
is absent from `src/`.  §4.8: "`stop`: tears down all peer streams through
the base protocol"; it touches neither the subscription set nor the
validator registry nor the cache (those belong to the `Multicast`
subclass). -/
def baseStop (e : Engine) : Engine :=
  { e with started := false
           peers := e.peers.map (fun p => { p with stream := none }) }

/-- `stop (callback)` from `src/src/index.js`: run the base-class teardown,
then reset `this.subscriptions` to a fresh empty set. -/
def stop (e : Engine) : Engine :=
  { baseStop e with subscriptions := [] }

/-- State of the asynchronous `Multicast` variant (`src/unnamed/part_000`)
as seen by the façade (`src/unnamed/part_001`): the `fwrdHooks` registry
replaces `_fwrdValidators`, and `listeners` tracks the event-emitter
listener count per topic (`listenerCount` / `on` / `removeListener`). -/
structure EngineAsync where
  started : Bool
  localId : String
  cache : List String
  subscriptions : List Topic
  peers : List Peer
  fwrdHooks : List (Topic × List AsyncValidator)
  listeners : List (Topic × Nat)

/-- `multicast.listenerCount(topic)`. -/
def listenerCount (l : List (Topic × Nat)) (t : Topic) : Nat :=
  match l.find? (fun e => e.1 == t) with
  | none => 0
  | some e => e.2

/-- `multicast.on(topic, handler)`: registers one more listener for the
topic. -/
def addListener (e : EngineAsync) (t : Topic) : EngineAsync :=
  if (e.listeners.find? (fun x => x.1 == t)).isSome then
    { e with listeners := e.listeners.map (fun x => if x.1 == t then (x.1, x.2 + 1) else x) }
  else
    { e with listeners := e.listeners ++ [(t, 1)] }

/-- `addFrwdHook (topic, hook)` from `src/unnamed/part_000`: create the
topic's hook set on first use, then add the hook to it.  (The source keeps
a JS `Set` of functions; adding a hook not yet present appends it.) -/
def addFrwdHook (e : EngineAsync) (t : Topic) (h : AsyncValidator) : EngineAsync :=
  match lookupHooks e.fwrdHooks t with
  | none => { e with fwrdHooks := e.fwrdHooks ++ [(t, [h])] }
  | some _ =>
    { e with fwrdHooks := e.fwrdHooks.map (fun p => if p.1 == t then (p.1, p.2 ++ [h]) else p) }

/-- The engine-level `subscribe (topics)` of the asynchronous variant: add
the topics to the local subscription set and push a subscribe-delta record
to every currently writable peer.  (For a non-writable peer the source
defers the push behind a one-shot `connection` listener; that event-driven
retry is outside this state model and no claim below depends on it.) -/
def subscribeEngine (e : EngineAsync) (topics : List Topic) : EngineAsync :=
  { e with
    subscriptions := topics.foldl (fun s t => if s.contains t then s else s ++ [t])
                       e.subscriptions
    peers := e.peers.map (fun p => if p.isWritable then p.sendSubscriptions topics else p) }

/-- The options object passed to the façade's `subscribe`.  A JavaScript
caller sets the property `frwdHooks`; the property `frwdHook` is read by
the source (a typo) but set by nobody, so reading it yields `undefined`
(`none`). -/
structure SubscribeOptions where
  frwdHooks : Option (List AsyncValidator)
  frwdHook : Option (List AsyncValidator)

/-- The façade's `subscribe (topic, options, handler, callback)` from
`src/unnamed/part_001`, for the call shape where `options` is supplied.
An `.error` result models the callback receiving an error or the inner
`subscribe` closure throwing.  Note the source guards on
`options.frwdHooks.length` but then iterates `options.frwdHook` — reading
`forEach` of `undefined` throws a `TypeError` before any hook is installed
and before `multicast.on(topic, handler)` runs. -/
def facadeSubscribe (nodeStarted : Bool) (e : EngineAsync) (topic : Topic)
    (options : SubscribeOptions) : Except String EngineAsync :=
  if !nodeStarted && !e.started then .error "The libp2p node is not started yet"
  else
    let e1 := if listenerCount e.listeners topic = 0 then subscribeEngine e [topic] else e
    let hooks := options.frwdHooks.getD []
    if hooks.length ≠ 0 then
      match options.frwdHook with
      | none => .error "TypeError: Cannot read property forEach of undefined"
      | some hs => .ok (addListener (hs.foldl (fun acc h => addFrwdHook acc topic h) e1) topic)
    else .ok (addListener e1 topic)

/-!  Helper lemmas. -/

theorem countPut_append (id : String) (a b : List Event) :
    countPut id (a ++ b) = countPut id a + countPut id b := by
  simp [countPut, List.filter_append]

theorem filter_put_emitMessages (id : String) (subs ts : List Topic) (ms : List Message) :
    (emitMessages subs ts ms).filter (fun e => e == Event.put id) = [] := by
  rw [List.filter_eq_nil_iff]
  intro e he
  simp only [emitMessages, List.mem_flatMap, List.mem_map] at he
  obtain ⟨t, -, m, -, rfl⟩ := he
  simp

theorem countPut_emitMessages (id : String) (subs ts : List Topic) (ms : List Message) :
    countPut id (emitMessages subs ts ms) = 0 := by
  simp [countPut, filter_put_emitMessages]

/-- Unpack `processOne`: effect on the cache and number of cache
insertions appearing in its trace. -/
theorem countPut_processOne (subs : List Topic) (cache : List String) (m : Message)
    (id : String) :
    (processOne subs cache m).1 =
      (if cache.contains (msgId m.fromId m.seqno) then cache
       else msgId m.fromId m.seqno :: cache) ∧
    countPut id (processOne subs cache m).2 =
      (if cache.contains (msgId m.fromId m.seqno) then 0
       else if id = msgId m.fromId m.seqno then 1 else 0) := by
  by_cases hdup : cache.contains (msgId m.fromId m.seqno) = true
  · have hmem : msgId m.fromId m.seqno ∈ cache := by simpa using hdup
    constructor <;> simp [processOne, hdup, hmem, countPut]
  · have hc : cache.contains (msgId m.fromId m.seqno) = false := by simpa using hdup
    have hmem : msgId m.fromId m.seqno ∉ cache := by simpa using hdup
    have htrace : ∃ tail, (processOne subs cache m).2 = Event.put (msgId m.fromId m.seqno) :: tail ∧
        tail.filter (fun e => e == Event.put id) = [] ∧
        (processOne subs cache m).1 = msgId m.fromId m.seqno :: cache := by
      by_cases h0 : m.hops = 0
      · exact ⟨emitMessages subs m.topicIDs [m],
          by simp [processOne, hmem, h0],
          filter_put_emitMessages id subs _ _,
          by simp [processOne, hmem, h0]⟩
      · refine ⟨emitMessages subs m.topicIDs [m] ++
            [Event.fwd m.topicIDs (if 0 < m.hops then { m with hops := m.hops - 1 } else m)],
          by simp [processOne, hmem, h0],
          ?_,
          by simp [processOne, hmem, h0]⟩
        simp [List.filter_append, filter_put_emitMessages]
    obtain ⟨tail, ht2, htf, ht1⟩ := htrace
    constructor
    · rw [ht1]; simp [hmem]
    · rw [countPut, ht2, List.filter_cons, htf]
      by_cases hid : id = msgId m.fromId m.seqno
      · subst hid; simp [hmem]
      · simp [hmem, hid, Ne.symm hid]

theorem contains_cons_ne (cache : List String) (a id : String) (h : id ≠ a) :
    (a :: cache).contains id = cache.contains id := by
  simp [List.contains_cons, h]

/-- A message whose identifier is already cached is discarded: the cache is
unchanged and no event happens. -/
theorem processOne_of_cached (subs : List Topic) (cache : List String) (m : Message)
    (h : cache.contains (msgId m.fromId m.seqno) = true) :
    processOne subs cache m = (cache, []) := by
  have hmem : msgId m.fromId m.seqno ∈ cache := by simpa using h
  simp [processOne, hmem]

/-- Across a whole batch, the pipeline runs at most once per identifier:
never when the identifier is already cached, at most once otherwise. -/
theorem countPut_processRpc (subs : List Topic) (id : String) :
    ∀ (msgs : List Message) (cache : List String),
      countPut id (processRpcMessages subs cache msgs).2 ≤
        (if cache.contains id then 0 else 1) := by
  intro msgs
  induction msgs with
  | nil => intro cache; simp [processRpcMessages, countPut]
  | cons m rest ih =>
    intro cache
    obtain ⟨h1, h2⟩ := countPut_processOne subs cache m id
    have hshape : (processRpcMessages subs cache (m :: rest)).2 =
        (processOne subs cache m).2 ++
          (processRpcMessages subs (processOne subs cache m).1 rest).2 := rfl
    rw [hshape, countPut_append, h2]
    by_cases hdup : cache.contains (msgId m.fromId m.seqno) = true
    · rw [if_pos hdup] at h1 ⊢
      rw [h1]
      simpa using ih cache
    · have hc : cache.contains (msgId m.fromId m.seqno) = false := by simpa using hdup
      rw [hc] at h1
      simp only [Bool.false_eq_true, if_false] at h1
      rw [h1, hc]
      simp only [Bool.false_eq_true, if_false]
      by_cases hid : id = msgId m.fromId m.seqno
      · rw [if_pos hid]
        have hcc : (msgId m.fromId m.seqno :: cache).contains id = true := by
          simp [List.contains_cons, hid]
        have hrec := ih (msgId m.fromId m.seqno :: cache)
        rw [hcc] at hrec
        simp only [if_pos] at hrec
        have hcid : cache.contains id = false := by rw [hid]; exact hc
        rw [hcid]
        simp only [Bool.false_eq_true, if_false]
        omega
      · rw [if_neg hid]
        have hcc : (msgId m.fromId m.seqno :: cache).contains id = cache.contains id :=
          contains_cons_ne cache _ id hid
        have hrec := ih (msgId m.fromId m.seqno :: cache)
        rw [hcc] at hrec
        omega

/-- C1: a received message whose identifier is already cached triggers no
cache insertion, no local emit and no forward; a fresh identifier is put
into the cache first (the `put` heads the trace, the returned cache gains
the identifier), and over any batch the local-emit pipeline runs at most
once per identifier — never when the identifier was already cached. -/
theorem claim_dedup_at_most_once (subs : List Topic) :
    (∀ (cache : List String) (m : Message),
        cache.contains (msgId m.fromId m.seqno) = true →
        processOne subs cache m = (cache, [])) ∧
    (∀ (cache : List String) (m : Message),
        cache.contains (msgId m.fromId m.seqno) = false →
        (processOne subs cache m).1 = msgId m.fromId m.seqno :: cache ∧
        ∃ evs, (processOne subs cache m).2 = Event.put (msgId m.fromId m.seqno) :: evs) ∧
    (∀ (cache : List String) (msgs : List Message) (id : String),
        countPut id (processRpcMessages subs cache msgs).2 ≤
          (if cache.contains id then 0 else 1)) := by
  refine ⟨?_, ?_, fun cache msgs id => countPut_processRpc subs id msgs cache⟩
  · intro cache m h
    have hmem : msgId m.fromId m.seqno ∈ cache := by simpa using h
    simp [processOne, hmem]
  · intro cache m h
    have hmem : msgId m.fromId m.seqno ∉ cache := by simpa using h
    constructor
    · by_cases h0 : m.hops = 0 <;> simp [processOne, hmem, h0]
    · by_cases h0 : m.hops = 0
      · exact ⟨emitMessages subs m.topicIDs [m], by simp [processOne, hmem, h0]⟩
      · exact ⟨emitMessages subs m.topicIDs [m] ++
            [Event.fwd m.topicIDs (if 0 < m.hops then { m with hops := m.hops - 1 } else m)],
          by simp [processOne, hmem, h0]⟩

theorem claim_dedup_at_most_once_witness :
    processOne ["t"] [msgId "a" "s"] ⟨"a", "d", "s", 1, ["t"]⟩ = ([msgId "a" "s"], []) :=
  (claim_dedup_at_most_once ["t"]).1 [msgId "a" "s"] ⟨"a", "d", "s", 1, ["t"]⟩ (by decide)

/-- C2: for a non-duplicate message, `hops = 0` yields the local deliveries
(one per locally subscribed topic among its `topicIDs`) and no forward;
`hops = k > 0` yields a forward of the message with `hops = k - 1`; a
negative `hops` yields a forward of the message unchanged. -/
theorem claim_hop_semantics (subs : List Topic) (cache : List String) (m : Message)
    (hnew : cache.contains (msgId m.fromId m.seqno) = false) :
    (m.hops = 0 →
      processOne subs cache m =
        (msgId m.fromId m.seqno :: cache,
         Event.put (msgId m.fromId m.seqno) :: emitMessages subs m.topicIDs [m])) ∧
    (0 < m.hops →
      processOne subs cache m =
        (msgId m.fromId m.seqno :: cache,
         Event.put (msgId m.fromId m.seqno) ::
           (emitMessages subs m.topicIDs [m] ++
             [Event.fwd m.topicIDs { m with hops := m.hops - 1 }]))) ∧
    (m.hops < 0 →
      processOne subs cache m =
        (msgId m.fromId m.seqno :: cache,
         Event.put (msgId m.fromId m.seqno) ::
           (emitMessages subs m.topicIDs [m] ++ [Event.fwd m.topicIDs m]))) := by
  have hmem : msgId m.fromId m.seqno ∉ cache := by simpa using hnew
  refine ⟨?_, ?_, ?_⟩
  · intro h0
    simp [processOne, hmem, h0]
  · intro hpos
    have h0 : ¬ m.hops = 0 := by omega
    simp [processOne, hmem, h0, hpos]
  · intro hneg
    have h0 : ¬ m.hops = 0 := by omega
    have hpos : ¬ 0 < m.hops := by omega
    simp [processOne, hmem, h0, hpos]

theorem mem_syncFilterStep (reg : List (Topic × List SyncValidator)) (q : Peer)
    (msgs : List Message) (t : Topic) (m : Message) :
    m ∈ syncFilterStep reg q msgs t ↔ m ∈ msgs ∧ passesSync reg q m t = true := by
  unfold syncFilterStep passesSync
  cases lookupValidators reg t with
  | none => simp
  | some vs => simp [List.mem_filter]

theorem mem_syncFold (reg : List (Topic × List SyncValidator)) (q : Peer)
    (ts : List Topic) :
    ∀ (msgs : List Message) (m : Message),
      m ∈ ts.foldl (syncFilterStep reg q) msgs ↔
        m ∈ msgs ∧ ∀ t ∈ ts, passesSync reg q m t = true := by
  induction ts with
  | nil => intro msgs m; simp
  | cons t ts ih =>
    intro msgs m
    rw [List.foldl_cons, ih, mem_syncFilterStep]
    simp only [List.mem_cons, forall_eq_or_imp]
    tauto

theorem anyMatch_of_mem (a b : List Topic) (t : Topic) (ha : t ∈ a) (hb : t ∈ b) :
    anyMatch a b = true := by
  simp only [anyMatch, List.any_eq_true]
  exact ⟨t, ha, by simpa using hb⟩

theorem asyncTopicSend_mem_single (hooks : List (Topic × List AsyncValidator))
    (q : Peer) (t : Topic) (m : Message) (ht : t ∈ m.topicIDs)
    (hpass : lookupHooks hooks t = none ∨
      ∃ vs, lookupHooks hooks t = some vs ∧ everyValidators vs q m = .ok true) :
    ∃ r ∈ asyncTopicSend hooks q t [m], m ∈ r := by
  rcases hpass with h | ⟨vs, h, hv⟩
  · refine ⟨[m], ?_, by simp⟩
    simp [asyncTopicSend, h, normalizeOutRpcMessages]
  · have hcont : m.topicIDs.contains t = true := by simpa using ht
    have hfil : filterTopicMsgs vs q t [m] = .ok [m] := by
      simp [filterTopicMsgs, hcont, ht, hv]
    refine ⟨[m], ?_, by simp⟩
    simp [asyncTopicSend, h, hfil, normalizeOutRpcMessages]

/-- C3 as stated is refuted on the synchronous `_forwardMessages` of
`src/src/index.js`: the peer is writable, shares topic `t2` with the
message, and `t2` has no registered validators, so by the claim the
message should pass trivially through `t2` and be sent — yet the `t1`
validator (a topic the peer also subscribes to) removes it and the peer is
sent an empty batch. -/
theorem claim_forward_any_topic_counterexample :
    (⟨"q", ["t1", "t2"], some [], 0⟩ : Peer).isWritable = true ∧
    "t2" ∈ (⟨"q", ["t1", "t2"], some [], 0⟩ : Peer).topics ∧
    "t2" ∈ (⟨"a", "d", "s", 1, ["t1", "t2"]⟩ : Message).topicIDs ∧
    lookupValidators [("t1", [fun _ _ => false])] "t2" = none ∧
    forwardToPeerSync [("t1", [fun _ _ => false])]
      (⟨"q", ["t1", "t2"], some [], 0⟩ : Peer) ["t1", "t2"]
      [⟨"a", "d", "s", 1, ["t1", "t2"]⟩] = some [] := by
  refine ⟨rfl, ?_, ?_, rfl, rfl⟩ <;> simp

/-- C3 (amended): the disjunctive "passes at least one topic of
`q.topics ∩ m.topicIDs`" rule holds for the asynchronous
`_forwardMessages` of `src/unnamed/part_000` for a single-message forward,
the shape the receive pipeline uses — and only for that shape: in a
multi-message batch a hook error raised on another batch member makes
`async/filter` abort with the error and the whole batch for that topic is
dropped, a passing message included.  The synchronous `_forwardMessages`
of `src/src/index.js` instead sends a message to a writable, topic-sharing
peer iff it passes the validators of every topic the peer subscribes to
that has a registered validator set, whether or not the topic is among the
message's `topicIDs`. -/
theorem claim_forward_validator_semantics
    (hooks : List (Topic × List AsyncValidator))
    (reg : List (Topic × List SyncValidator))
    (q : Peer) (m : Message) (t : Topic) (messages : List Message)
    (hw : q.isWritable = true) :
    (t ∈ q.topics → t ∈ m.topicIDs →
      (lookupHooks hooks t = none ∨
        ∃ vs, lookupHooks hooks t = some vs ∧ everyValidators vs q m = .ok true) →
      ∃ r ∈ forwardToPeerAsync hooks q m.topicIDs [m], m ∈ r) ∧
    (anyMatch q.topics m.topicIDs = true →
      ∃ l, forwardToPeerSync reg q m.topicIDs messages = some l ∧
        (m ∈ l ↔ m ∈ messages ∧ ∀ t' ∈ q.topics, passesSync reg q m t' = true)) := by
  constructor
  · intro htq htm hpass
    have hany : anyMatch q.topics m.topicIDs = true := anyMatch_of_mem _ _ t htq htm
    obtain ⟨r, hr, hmr⟩ := asyncTopicSend_mem_single hooks q t m htm hpass
    refine ⟨r, ?_, hmr⟩
    rw [forwardToPeerAsync]
    simp only [hw, hany, Bool.not_true, Bool.or_self, Bool.false_eq_true, if_false]
    exact List.mem_flatMap.mpr ⟨t, htq, hr⟩
  · intro hany
    refine ⟨q.topics.foldl (syncFilterStep reg q) messages, ?_,
      mem_syncFold reg q q.topics messages m⟩
    rw [forwardToPeerSync]
    simp [hw, hany, normalizeOutRpcMessages]

theorem claim_forward_validator_semantics_witness :
    ∃ r ∈ forwardToPeerAsync [] (⟨"q", ["t"], some [], 0⟩ : Peer)
        (⟨"a", "d", "s", 1, ["t"]⟩ : Message).topicIDs
        [⟨"a", "d", "s", 1, ["t"]⟩],
      (⟨"a", "d", "s", 1, ["t"]⟩ : Message) ∈ r :=
  (claim_forward_validator_semantics [] [] ⟨"q", ["t"], some [], 0⟩
      ⟨"a", "d", "s", 1, ["t"]⟩ "t" [] rfl).1 (by simp) (by simp) (Or.inl rfl)

/-- C4 as stated is refuted on the synchronous `_forwardMessages` of
`src/src/index.js`: every validator registered for `t1` approves the
message (`t1` being in both the peer's topics and the message's
`topicIDs`), yet the message is not sent, because the validator of the
unrelated topic `t2` rejects it. -/
theorem claim_validator_conjunction_counterexample :
    lookupValidators [("t1", [fun _ _ => true]), ("t2", [fun _ _ => false])] "t1" =
      some [fun _ _ => true] ∧
    (∀ v ∈ [(fun _ _ => true : SyncValidator)],
        v ⟨"q", ["t1", "t2"], some [], 0⟩ ⟨"a", "d", "s", 1, ["t1"]⟩ = true) ∧
    "t1" ∈ (⟨"q", ["t1", "t2"], some [], 0⟩ : Peer).topics ∧
    "t1" ∈ (⟨"a", "d", "s", 1, ["t1"]⟩ : Message).topicIDs ∧
    (⟨"q", ["t1", "t2"], some [], 0⟩ : Peer).isWritable = true ∧
    forwardToPeerSync [("t1", [fun _ _ => true]), ("t2", [fun _ _ => false])]
      (⟨"q", ["t1", "t2"], some [], 0⟩ : Peer) ["t1"]
      [⟨"a", "d", "s", 1, ["t1"]⟩] = some [] := by
  refine ⟨rfl, ?_, ?_, ?_, rfl, rfl⟩
  · intro v hv
    rw [List.mem_singleton] at hv
    subst hv
    rfl
  · simp
  · simp

/-- C4 (amended): in the asynchronous `_forwardMessages` of
`src/unnamed/part_000`, for a topic `t` of the peer with a non-empty hook
set and a single-message batch addressed to `t`, the message is sent for
`t` iff every hook (run in order, conjunction with short-circuit) returns
a truthy verdict; if a hook reports an error the batch for that topic is
dropped and the error is consumed (the send procedure returns normally
with no send), and a rejecting hook likewise drops the message. -/
theorem claim_async_validator_conjunction (hooks : List (Topic × List AsyncValidator))
    (q : Peer) (t : Topic) (vs : List AsyncValidator) (m : Message)
    (hvs : lookupHooks hooks t = some vs) (ht : t ∈ m.topicIDs) :
    (asyncTopicSend hooks q t [m] = [[m]] ↔ everyValidators vs q m = .ok true) ∧
    (∀ err, everyValidators vs q m = .error err → asyncTopicSend hooks q t [m] = []) ∧
    (everyValidators vs q m = .ok false → asyncTopicSend hooks q t [m] = []) := by
  have hcont : m.topicIDs.contains t = true := by simpa using ht
  cases hev : everyValidators vs q m with
  | error e =>
    have hsend : asyncTopicSend hooks q t [m] = [] := by
      simp [asyncTopicSend, hvs, filterTopicMsgs, hcont, ht, hev]
    refine ⟨?_, ?_, ?_⟩
    · rw [hsend]; simp
    · intro err _; exact hsend
    · intro h; exact hsend
  | ok b =>
    cases b with
    | false =>
      have hsend : asyncTopicSend hooks q t [m] = [] := by
        simp [asyncTopicSend, hvs, filterTopicMsgs, hcont, ht, hev]
      refine ⟨?_, ?_, ?_⟩
      · rw [hsend]; simp
      · intro err herr; simp at herr
      · intro _; exact hsend
    | true =>
      have hsend : asyncTopicSend hooks q t [m] = [[m]] := by
        simp [asyncTopicSend, hvs, filterTopicMsgs, hcont, ht, hev, normalizeOutRpcMessages]
      refine ⟨?_, ?_, ?_⟩
      · rw [hsend]; simp
      · intro err herr; simp at herr
      · intro h; simp at h

theorem claim_async_validator_conjunction_witness :
    asyncTopicSend [("t", [fun _ _ => Except.ok true])]
      (⟨"q", ["t"], some [], 0⟩ : Peer) "t" [⟨"a", "d", "s", 1, ["t"]⟩] =
      [[⟨"a", "d", "s", 1, ["t"]⟩]] :=
  ((claim_async_validator_conjunction [("t", [fun _ _ => Except.ok true])]
      ⟨"q", ["t"], some [], 0⟩ "t" [fun _ _ => Except.ok true]
      ⟨"a", "d", "s", 1, ["t"]⟩ rfl (by simp)).1).mpr rfl

theorem claim_hop_semantics_witness :
    processOne ["t"] [] ⟨"a", "d", "s", 1, ["t"]⟩ =
      (msgId "a" "s" :: [],
       Event.put (msgId "a" "s") ::
         (emitMessages ["t"] ["t"] [⟨"a", "d", "s", 1, ["t"]⟩] ++
           [Event.fwd ["t"] ⟨"a", "d", "s", 0, ["t"]⟩])) :=
  (claim_hop_semantics ["t"] [] ⟨"a", "d", "s", 1, ["t"]⟩ (by decide)).2.1 (by decide)

/-- C5: `publish` inserts every built message's identifier into the cache
before the local emit and the forward run (both are computed against the
already-updated cache, and the updated cache retains the identifiers), so
an echo of a published message — any received message with the same
identifier — is discarded by the receive pipeline with no second local
delivery and no forward. -/
theorem claim_publish_echo_suppression (e : Engine) (topics : List Topic)
    (payloads seqnos : List String) (hops : Int) (out : PublishOut)
    (hpub : publish e topics payloads seqnos hops = .ok out)
    (s : String) (hs : s ∈ (payloads.zip seqnos).map Prod.snd)
    (echo : Message)
    (hecho : msgId echo.fromId echo.seqno = msgId e.localId s) :
    out.engine.cache.contains (msgId e.localId s) = true ∧
    processOne out.engine.subscriptions out.engine.cache echo =
      (out.engine.cache, []) := by
  rw [publish] at hpub
  cases he : e.started with
  | false => rw [he] at hpub; simp at hpub
  | true =>
    rw [he] at hpub
    simp only [Bool.not_true, Bool.false_eq_true, if_false, Except.ok.injEq] at hpub
    subst hpub
    have hmem : msgId e.localId s ∈
        ((payloads.zip seqnos).map (fun ps =>
          (msgId e.localId ps.2,
           ({ fromId := e.localId, data := ps.1, seqno := ps.2, hops := hops,
              topicIDs := topics } : Message)))).map (fun b => b.1) ++ e.cache := by
      rw [List.mem_append]
      left
      rw [List.mem_map] at hs
      obtain ⟨ps, hps, rfl⟩ := hs
      rw [List.map_map, List.mem_map]
      exact ⟨ps, hps, rfl⟩
    have hcontains : (((payloads.zip seqnos).map (fun ps =>
          (msgId e.localId ps.2,
           ({ fromId := e.localId, data := ps.1, seqno := ps.2, hops := hops,
              topicIDs := topics } : Message)))).map (fun b => b.1) ++ e.cache).contains
          (msgId e.localId s) = true := by
      simpa using hmem
    refine ⟨hcontains, ?_⟩
    refine processOne_of_cached _ _ _ ?_
    rw [hecho]
    exact hcontains

theorem claim_publish_echo_suppression_witness :
    processOne ["t"] [msgId "me" "s"] ⟨"me", "d", "s", 1, ["t"]⟩ =
      ([msgId "me" "s"], []) := by
  have h := claim_publish_echo_suppression ⟨true, "me", [], ["t"], [], []⟩ ["t"]
      ["d"] ["s"] 1
      { engine := ⟨true, "me", [msgId "me" "s"], ["t"], [], []⟩
        emits := [Event.emit "t" ⟨"me", "d", "s", 1, ["t"]⟩]
        sends := [] }
      rfl "s" (by simp) ⟨"me", "d", "s", 1, ["t"]⟩ rfl
  exact h.2

/-- C6: both variants of the forward procedure send nothing to a peer that
is not writable, and nothing to a peer whose announced topics are disjoint
from the topics being forwarded. -/
theorem claim_forward_skips (reg : List (Topic × List SyncValidator))
    (hooks : List (Topic × List AsyncValidator)) (q : Peer)
    (topics : List Topic) (messages : List Message)
    (h : q.isWritable = false ∨ anyMatch q.topics topics = false) :
    forwardToPeerSync reg q topics messages = none ∧
    forwardToPeerAsync hooks q topics messages = [] := by
  rcases h with h | h <;>
    exact ⟨by simp [forwardToPeerSync, h], by simp [forwardToPeerAsync, h]⟩

theorem claim_forward_skips_witness :
    forwardToPeerSync [] (⟨"q", ["t"], none, 0⟩ : Peer) ["t"] [] = none ∧
    forwardToPeerAsync [] (⟨"q", ["t"], none, 0⟩ : Peer) ["t"] [] = [] :=
  claim_forward_skips [] [] ⟨"q", ["t"], none, 0⟩ ["t"] [] (Or.inl rfl)

/-- C7 as stated is refuted on `sendMessages` of `src/src/peer.js`: the
method has no empty-input guard, so on an empty message list it still
pushes one RPC record (with an empty `msgs` field) onto a writable peer's
stream — not a no-op. -/
theorem claim_send_empty_counterexample :
    Peer.sendMessages ⟨"p", [], some [], 0⟩ [] ≠ (⟨"p", [], some [], 0⟩ : Peer) ∧
    (Peer.sendMessages ⟨"p", [], some [], 0⟩ []).stream =
      some [{ subscriptions := [], msgs := [] }] := by
  constructor
  · decide
  · rfl

/-- C7 (amended): on a writable peer, `sendSubscriptions` and
`sendUnsubscriptions` push exactly one RPC record holding one subscription
entry per input topic with the appropriate boolean and are no-ops on empty
input; `sendMessages` pushes exactly one RPC record with the `msgs` field
populated, on empty input included (it has no empty-input guard). -/
theorem claim_send_record_shapes (p : Peer) (s : List RPC) (topics : List Topic)
    (msgs : List Message) (hw : p.stream = some s) :
    (topics ≠ [] →
      p.sendSubscriptions topics =
        { p with stream := some (s ++
            [{ subscriptions := topics.map (fun t => ⟨true, t⟩), msgs := [] }]) }) ∧
    p.sendSubscriptions [] = p ∧
    (topics ≠ [] →
      p.sendUnsubscriptions topics =
        { p with stream := some (s ++
            [{ subscriptions := topics.map (fun t => ⟨false, t⟩), msgs := [] }]) }) ∧
    p.sendUnsubscriptions [] = p ∧
    p.sendMessages msgs =
      { p with stream := some (s ++ [{ subscriptions := [], msgs := msgs }]) } := by
  refine ⟨?_, ?_, ?_, ?_, ?_⟩
  · intro ht
    have hlen : ¬ topics.length = 0 := by simpa [List.length_eq_zero] using ht
    simp [Peer.sendSubscriptions, Peer.sendRawSubscriptions, hlen, Peer.write, hw]
  · rfl
  · intro ht
    have hlen : ¬ topics.length = 0 := by simpa [List.length_eq_zero] using ht
    simp [Peer.sendUnsubscriptions, Peer.sendRawSubscriptions, hlen, Peer.write, hw]
  · rfl
  · simp [Peer.sendMessages, Peer.write, hw]

theorem claim_send_record_shapes_witness :
    Peer.sendSubscriptions ⟨"p", [], some [], 0⟩ ["a"] =
      (⟨"p", [], some [{ subscriptions := [⟨true, "a"⟩], msgs := [] }], 0⟩ : Peer) :=
  (claim_send_record_shapes ⟨"p", [], some [], 0⟩ [] ["a"] [] rfl).1 (by decide)

/-- C8: `stop` resets the local subscription set to empty and leaves both
the forwarding-validator registry and the duplicate-suppression cache
untouched (the base-class teardown only clears peer streams and the
started flag). -/
theorem claim_stop_frame (e : Engine) :
    (stop e).subscriptions = [] ∧
    (stop e).fwrdValidators = e.fwrdValidators ∧
    (stop e).cache = e.cache :=
  ⟨rfl, rfl, rfl⟩

/-- C9: the claim states the intended behaviour (spec §9 flags the source's
typo); the code instead reads `options.frwdHook` — a property no caller
sets — so on a started node a `subscribe` call with a non-empty
`options.frwdHooks` list throws a `TypeError` before installing any hook:
the façade returns the error and no validator is registered. -/
theorem claim_facade_subscribe_typo (nodeStarted : Bool) (e : EngineAsync)
    (topic : Topic) (hs : List AsyncValidator)
    (hstart : nodeStarted = true) (hne : hs ≠ []) :
    facadeSubscribe nodeStarted e topic { frwdHooks := some hs, frwdHook := none } =
      .error "TypeError: Cannot read property forEach of undefined" := by
  have hlen : hs.length ≠ 0 := by simpa [List.length_eq_zero] using hne
  simp [facadeSubscribe, hstart, hlen]

theorem claim_facade_subscribe_typo_witness :
    facadeSubscribe true ⟨true, "me", [], [], [], [], []⟩ "t"
      { frwdHooks := some [fun _ _ => Except.ok true], frwdHook := none } =
      .error "TypeError: Cannot read property forEach of undefined" :=
  claim_facade_subscribe_typo true ⟨true, "me", [], [], [], [], []⟩ "t"
    [fun _ _ => Except.ok true] rfl (by simp)

/-- C10: `write` on a peer with no writable stream does not throw (the
embedding is a total function), leaves the peer record — stream, topics,
references — unchanged, pushes nothing, and reports the
`NoWritableConnection` error only through the optional callback; with the
callback omitted the error is silently discarded. -/
theorem claim_write_no_writable (p : Peer) (msg : RPC) (hasCb : Bool)
    (h : p.stream = none) :
    (p.write msg hasCb).peer = p ∧
    (p.write msg hasCb).wrote = false ∧
    (p.write msg hasCb).delivered =
      (if hasCb then some ("No writable connection to " ++ p.id) else none) := by
  simp [Peer.write, h]

theorem claim_write_no_writable_witness :
    ((⟨"p", [], none, 0⟩ : Peer).write { subscriptions := [], msgs := [] } false).peer =
      (⟨"p", [], none, 0⟩ : Peer) :=
  (claim_write_no_writable ⟨"p", [], none, 0⟩ { subscriptions := [], msgs := [] }
    false rfl).1

end Multicast
